import Mathlib

/-!
Shallow embedding of the `domafic` node/tree library (src/src/lib.rs).

The Rust library represents a DOM-like tree through traits:
`DOMNode` (a single node: attribute lookup, children folding, value),
`DOMNodes` (a collection of nodes foldable via a processor), and
`DOMNodeProcessor` (a visitor with an accumulator and error type).
Here the concrete node shapes the library defines are collected into a
mutual inductive pair `DNode`/`DNodes`, and the trait methods become
total functions on them.  Rust's `&mut acc`-plus-`Result<(), E>`
convention becomes explicit state passing `Acc → Except Error Acc`.
-/

/-- `type KeyValue = (&'static str, &'static str)` -/
abbrev KeyValue := String × String

/-- `enum DOMValue<'a> { Element { tag: &'a str }, Text(&'a str) }` -/
inductive DOMValue : Type where
  | Element (tag : String)
  | Text (text : String)
deriving DecidableEq, Repr

mutual

/-- Node shapes the library defines as `DOMNode` implementors:
`tags::Tag` (tagname, attributes, contents), text nodes (`String` /
`&'static str`), `WithAttributes` overlays, references `&'a T`, and
element-valued custom nodes with no attributes and no children
(the shape of the tests' `BogusOne`/`BogusTwo`, which only provide
`value()` and a trivial `process_children`). -/
inductive DNode : Type where
  | tag : String → List KeyValue → DNodes → DNode
  | text : String → DNode
  | withAttributes : DNode → List KeyValue → DNode
  | ref : DNode → DNode
  | custom : String → DNode

/-- Collection shapes the library defines as `DOMNodes` implementors:
`()`, a bare `T: DOMNode` (implicit singleton), `Option<T>`, and
sequences (`[T]`, `[T; N]`, `Vec<T>`) / fixed-arity heterogeneous
tuples, both folded member by member in order. -/
inductive DNodes : Type where
  | unit : DNodes
  | single : DNode → DNodes
  | opt : Option DNodes → DNodes
  | list : List DNodes → DNodes
  | tuple : List DNodes → DNodes

end

/-- `DOMNode::get_attribute`.  `Tag` reads its own attribute slice;
`WithAttributes` tries its own slice first and otherwise delegates at
`index - attributes.len()` (the subtraction is only reached when
`index >= len`, matching the lazy `or_else` in the source); every
other implementor inherits the default `{ None }`. -/
def DNode.get_attribute : DNode → Nat → Option KeyValue
  | .tag _ attrs _, index => attrs[index]?
  | .withAttributes node attrs, index =>
      (attrs[index]?).orElse (fun _ => node.get_attribute (index - attrs.length))
  | .text _, _ => none
  | .ref _, _ => none
  | .custom _, _ => none

/-- `DOMNode::value`.  `Tag` and the custom test nodes are elements,
strings are text, `WithAttributes` and `&'a T` forward to the wrapped
node. -/
def DNode.value : DNode → DOMValue
  | .tag tagname _ _ => .Element tagname
  | .text s => .Text s
  | .withAttributes node _ => node.value
  | .ref node => node.value
  | .custom tagname => .Element tagname

/-- `DOMNode::with_attributes`: wrap the node in a `WithAttributes`. -/
def DNode.with_attributes (node : DNode) (attrs : List KeyValue) : DNode :=
  .withAttributes node attrs

/-- `DOMNodeProcessor`: accumulator type, error type, and the dispatch
function returned by `get_processor`. -/
structure Processor : Type 1 where
  Acc : Type
  Error : Type
  proc : Acc → DNode → Except Error Acc

mutual

/-- `DOMNode::process_children` for each implementor: `Tag` folds its
contents via `process_all`, `WithAttributes` and text/custom nodes
return `Ok(())` untouched, `&'a T` forwards to the wrapped node. -/
def DNode.process_children (P : Processor) : DNode → P.Acc → Except P.Error P.Acc
  | .tag _ _ contents, acc => DNodes.process_all P contents acc
  | .text _, acc => .ok acc
  | .withAttributes _ _, acc => .ok acc
  | .ref node, acc => DNode.process_children P node acc
  | .custom _, acc => .ok acc

/-- `DOMNodes::process_all` for each implementor: `()` is a no-op, a
bare `DOMNode` is dispatched once through the processor, `Option`
folds its content if present, slices/arrays/vectors and tuples fold
their members left to right with `?` short-circuiting. -/
def DNodes.process_all (P : Processor) : DNodes → P.Acc → Except P.Error P.Acc
  | .unit, acc => .ok acc
  | .single node, acc => P.proc acc node
  | .opt none, acc => .ok acc
  | .opt (some inner), acc => DNodes.process_all P inner acc
  | .list members, acc => DNodes.processList P members acc
  | .tuple members, acc => DNodes.processList P members acc

/-- The member-by-member fold shared by the sequence and tuple
implementations: `for x in self { x.process_all::<P>(acc)?; }`. -/
def DNodes.processList (P : Processor) : List DNodes → P.Acc → Except P.Error P.Acc
  | [], acc => .ok acc
  | member :: rest, acc =>
      match DNodes.process_all P member acc with
      | .ok acc' => DNodes.processList P rest acc'
      | .error e => .error e

end

/-- `AttributeIter<'a, T>`: a node together with a running index. -/
structure AttributeIter : Type where
  node : DNode
  index : Nat

/-- `DOMNode::attributes`: `AttributeIter { node: self, index: 0 }`. -/
def DNode.attributes (n : DNode) : AttributeIter :=
  { node := n, index := 0 }

/-- `Iterator::next` for `AttributeIter`: read `get_attribute(index)`,
increment the index, return both the yielded item and the advanced
iterator (the Rust `&mut self` made explicit). -/
def AttributeIter.next (it : AttributeIter) : Option KeyValue × AttributeIter :=
  (it.node.get_attribute it.index, { node := it.node, index := it.index + 1 })

/-- The k-th item an iterator yields: advance `next` k times and take
the item produced by the final call. -/
def AttributeIter.nth (it : AttributeIter) : Nat → Option KeyValue
  | 0 => it.next.1
  | k + 1 => it.next.2.nth k

/-- An index from which every `get_attribute` lookup is `none`: the
total number of attribute entries reachable through `Tag` slices and
`WithAttributes` overlays. -/
def DNode.attrBound : DNode → Nat
  | .tag _ attrs _ => attrs.length
  | .withAttributes node attrs => attrs.length + node.attrBound
  | .text _ => 0
  | .ref _ => 0
  | .custom _ => 0

/-- Collect `get_attribute i, get_attribute (i+1), ...` until the
first `none`, with enough fuel to reach it: the list the
`AttributeIter` loop in the HTML writer traverses. -/
def DNode.collectAttrs (n : DNode) : Nat → Nat → List KeyValue
  | 0, _ => []
  | fuel + 1, i =>
      match n.get_attribute i with
      | none => []
      | some kv => kv :: n.collectAttrs fuel (i + 1)

/-- The finite attribute sequence of a node, read off from index 0. -/
def DNode.attrsList (n : DNode) : List KeyValue :=
  n.collectAttrs n.attrBound 0

namespace tags

/-- The two `TagProperties` implementors: a bare child collection
(empty attribute list), or `(Attrs(a), children)`. -/
inductive TagProperties : Type where
  | bare : DNodes → TagProperties
  | withAttrs : List KeyValue → DNodes → TagProperties

/-- `TagProperties::properties`: normalize to `(children, attributes)`. -/
def TagProperties.properties : TagProperties → DNodes × List KeyValue
  | .bare children => (children, [])
  | .withAttrs attrs children => (children, attrs)

/-- The body shared by every constructor `impl_tags!` generates:
build a `Tag` from the normalized properties, with the constructor's
fixed tag name. -/
def mkTag (tagname : String) (properties : TagProperties) : DNode :=
  let (contents, attributes) := properties.properties
  .tag tagname attributes contents

/-- The `div` entry of the tag catalog. -/
def div : TagProperties → DNode := mkTag "div"

/-- The `table` entry of the tag catalog. -/
def table : TagProperties → DNode := mkTag "table"

/-- The `th` entry of the tag catalog. -/
def th : TagProperties → DNode := mkTag "th"

/-- The `tr` entry of the tag catalog. -/
def tr : TagProperties → DNode := mkTag "tr"

/-- The `span` entry of the tag catalog. -/
def span : TagProperties → DNode := mkTag "span"

end tags

/-- The tests' `ChildCounter` processor: count dispatched nodes, with
the uninhabited `Never` error type (`Empty` here). -/
def ChildCounter : Processor :=
  { Acc := Nat, Error := Empty, proc := fun count _ => .ok (count + 1) }

/-- An output sink, the role `W: io::Write` plays for `HtmlWriter`:
a state type, an error type, and a fallible append. -/
structure Sink : Type 1 where
  W : Type
  E : Type
  write : W → String → Except E W

/-- The infallible sink used by the tests (`Vec<u8>` collecting utf-8):
a string accumulator whose `write` appends. -/
def stringSink : Sink :=
  { W := String, E := Empty, write := fun w s => .ok (w ++ s) }

/-- One attribute of the writer's loop: `write!(w, " {}=\"{}\"", k, v)`,
folded over the collected attribute list. -/
def writeAttrs (S : Sink) : List KeyValue → S.W → Except S.E S.W
  | [], w => .ok w
  | (k, v) :: rest, w => do
      let w ← S.write w (" " ++ k ++ "=\"" ++ v ++ "\"")
      writeAttrs S rest w

/-- The element branch of `add_node` up to the `>` of the opening tag:
`write!(w, "<{}", tagname)`, then the attribute loop, then
`write!(w, ">")`. -/
def writeOpenTag (S : Sink) (tagname : String) (attrs : List KeyValue)
    (w : S.W) : Except S.E S.W := do
  let w ← S.write w ("<" ++ tagname)
  let w ← writeAttrs S attrs w
  S.write w ">"

mutual

/-- The HTML writer's `add_node` dispatch function, unfolded at each
node shape: on an element-valued node, write `<tagname`, each
attribute the `attributes()` iterator yields, `>`, then the node's
children through the same processor, then `</tagname>`; on a
text-valued node write the payload verbatim (no escaping).
`writeNode_matches_add_node` below re-states this definition in the
source's `match node.value()` form. -/
def writeNode (S : Sink) : DNode → S.W → Except S.E S.W
  | .tag tagname attrs contents, w => do
      let w ← writeOpenTag S tagname (DNode.tag tagname attrs contents).attrsList w
      let w ← writeAll S contents w
      S.write w ("</" ++ tagname ++ ">")
  | .text s, w => S.write w s
  | .withAttributes node attrs, w =>
      match node.value with
      | .Element tagname => do
          let w ← writeOpenTag S tagname (DNode.withAttributes node attrs).attrsList w
          S.write w ("</" ++ tagname ++ ">")
      | .Text t => S.write w t
  | .ref node, w =>
      match node.value with
      | .Element tagname => do
          let w ← writeOpenTag S tagname (DNode.ref node).attrsList w
          let w ← writeChildren S node w
          S.write w ("</" ++ tagname ++ ">")
      | .Text t => S.write w t
  | .custom tagname, w => do
      let w ← writeOpenTag S tagname (DNode.custom tagname).attrsList w
      S.write w ("</" ++ tagname ++ ">")

/-- `process_children` specialized to the HTML writer (the recursive
knot `node.process_children::<HtmlWriter<W>>(w)` tied structurally). -/
def writeChildren (S : Sink) : DNode → S.W → Except S.E S.W
  | .tag _ _ contents, w => writeAll S contents w
  | .text _, w => .ok w
  | .withAttributes _ _, w => .ok w
  | .ref node, w => writeChildren S node w
  | .custom _, w => .ok w

/-- `process_all` specialized to the HTML writer. -/
def writeAll (S : Sink) : DNodes → S.W → Except S.E S.W
  | .unit, w => .ok w
  | .single node, w => writeNode S node w
  | .opt none, w => .ok w
  | .opt (some inner), w => writeAll S inner w
  | .list members, w => writeMembers S members w
  | .tuple members, w => writeMembers S members w

/-- The member fold of `process_all`, specialized to the HTML writer. -/
def writeMembers (S : Sink) : List DNodes → S.W → Except S.E S.W
  | [], w => .ok w
  | member :: rest, w => do
      let w ← writeAll S member w
      writeMembers S rest w

end

/-- `HtmlWriter<W>` as a processor over sink `S`: accumulator `S.W`,
error `S.E`, dispatch `add_node`. -/
def htmlWriter (S : Sink) : Processor :=
  { Acc := S.W, Error := S.E, proc := fun w n => writeNode S n w }

/-- The tests' `html_sample()`: a `div` with one attribute containing
`BogusOne, BogusOne, BogusTwo` and a `table` of text and empty
`th`/`tr` elements. -/
def htmlSample : DNode :=
  tags.div (.withAttrs [("attr", "value")] (.tuple [
    .single (.custom "bogus_tag_one"),
    .single (.custom "bogus_tag_one"),
    .single (.custom "bogus_tag_two"),
    .single (tags.table (.bare (.tuple [
      .single (.text "something"),
      .single (tags.th (.bare .unit)),
      .single (tags.tr (.bare .unit)),
      .single (tags.tr (.bare .unit))])))]))

/-- `Option.orElse` is `none` exactly when both alternatives are. -/
theorem orElse_none_iff (o : Option KeyValue) (f : Unit → Option KeyValue) :
    o.orElse f = none ↔ o = none ∧ f () = none := by
  cases o <;> simp [Option.orElse]

/-- Monotonic exhaustion, proved for every node shape: once
`get_attribute` is `none` it stays `none` at larger indices. -/
theorem get_attribute_mono : (n : DNode) → ∀ i j, i ≤ j →
    n.get_attribute i = none → n.get_attribute j = none
  | .tag _ attrs _, i, j, hij, h => by
      simp only [DNode.get_attribute] at h ⊢
      rw [List.getElem?_eq_none_iff] at h ⊢
      omega
  | .withAttributes node attrs, i, j, hij, h => by
      simp only [DNode.get_attribute] at h ⊢
      rw [orElse_none_iff] at h ⊢
      obtain ⟨h1, h2⟩ := h
      rw [List.getElem?_eq_none_iff] at h1
      refine ⟨by rw [List.getElem?_eq_none_iff]; omega, ?_⟩
      exact get_attribute_mono node (i - attrs.length) (j - attrs.length)
        (by omega) h2
  | .text _, _, _, _, _ => rfl
  | .ref _, _, _, _, _ => rfl
  | .custom _, _, _, _, _ => rfl

/-- Beyond `attrBound`, every lookup is `none`. -/
theorem attrBound_none : (n : DNode) → ∀ j, n.attrBound ≤ j →
    n.get_attribute j = none
  | .tag _ attrs _, j, hj => by
      simp only [DNode.attrBound] at hj
      simp only [DNode.get_attribute]
      rw [List.getElem?_eq_none_iff]
      omega
  | .withAttributes node attrs, j, hj => by
      simp only [DNode.attrBound] at hj
      simp only [DNode.get_attribute]
      rw [orElse_none_iff]
      refine ⟨by rw [List.getElem?_eq_none_iff]; omega, ?_⟩
      exact attrBound_none node (j - attrs.length) (by omega)
  | .text _, _, _ => rfl
  | .ref _, _, _ => rfl
  | .custom _, _, _ => rfl

/-- Within its length, `collectAttrs` reads back `get_attribute`. -/
theorem collectAttrs_getElem (n : DNode) : ∀ (fuel i k : Nat),
    k < (n.collectAttrs fuel i).length →
    (n.collectAttrs fuel i)[k]? = n.get_attribute (i + k)
  | 0, i, k, h => by simp [DNode.collectAttrs] at h
  | fuel + 1, i, k, h => by
      cases hg : n.get_attribute i with
      | none => simp [DNode.collectAttrs, hg] at h
      | some kv =>
          simp only [DNode.collectAttrs, hg] at h ⊢
          cases k with
          | zero => simp only [List.getElem?_cons_zero, Nat.add_zero, hg]
          | succ m =>
              have hlt : m < (n.collectAttrs fuel (i + 1)).length := by
                simp only [List.length_cons] at h
                omega
              rw [List.getElem?_cons_succ,
                show i + (m + 1) = (i + 1) + m by omega]
              exact collectAttrs_getElem n fuel (i + 1) m hlt

/-- Right past the collected attributes, `get_attribute` is `none`
(provided the fuel reached an exhausted index). -/
theorem collectAttrs_end (n : DNode) : ∀ (fuel i : Nat),
    n.get_attribute (i + fuel) = none →
    n.get_attribute (i + (n.collectAttrs fuel i).length) = none
  | 0, i, h => by simpa [DNode.collectAttrs] using h
  | fuel + 1, i, h => by
      cases hg : n.get_attribute i with
      | none => simp [DNode.collectAttrs, hg]
      | some kv =>
          have h' : n.get_attribute ((i + 1) + fuel) = none := by
            rw [show (i + 1) + fuel = i + (fuel + 1) by omega]
            exact h
          have ih := collectAttrs_end n fuel (i + 1) h'
          simp only [DNode.collectAttrs, hg, List.length_cons]
          rw [show i + ((n.collectAttrs fuel (i + 1)).length + 1)
              = (i + 1) + (n.collectAttrs fuel (i + 1)).length by omega]
          exact ih

/-- `attrsList` agrees with `get_attribute` index by index. -/
theorem attrsList_getElem (n : DNode) (k : Nat) (h : k < n.attrsList.length) :
    n.attrsList[k]? = n.get_attribute k := by
  simpa using collectAttrs_getElem n n.attrBound 0 k h

/-- `attrsList` stops exactly at an exhausted index. -/
theorem attrsList_end (n : DNode) :
    n.get_attribute n.attrsList.length = none := by
  have h0 : n.get_attribute (0 + n.attrBound) = none :=
    attrBound_none n _ (by omega)
  simpa using collectAttrs_end n n.attrBound 0 h0

/-- The k-th item yielded from an iterator at index `i` is
`get_attribute (i + k)`. -/
theorem nth_eq_get_attribute (n : DNode) : ∀ (i k : Nat),
    AttributeIter.nth { node := n, index := i } k = n.get_attribute (i + k)
  | _, 0 => by simp [AttributeIter.nth, AttributeIter.next]
  | i, k + 1 => by
      simp only [AttributeIter.nth, AttributeIter.next]
      rw [nth_eq_get_attribute n (i + 1) k,
        show (i + 1) + k = i + (k + 1) by omega]

mutual

/-- `process_children` with the `htmlWriter` processor is the writer's
own child traversal. -/
theorem process_children_htmlWriter (S : Sink) :
    (n : DNode) → (w : S.W) →
    DNode.process_children (htmlWriter S) n w = writeChildren S n w
  | .tag _ _ contents, w => process_all_htmlWriter S contents w
  | .text _, _ => rfl
  | .withAttributes _ _, _ => rfl
  | .ref node, w => process_children_htmlWriter S node w
  | .custom _, _ => rfl

/-- `process_all` with the `htmlWriter` processor is the writer's own
collection traversal. -/
theorem process_all_htmlWriter (S : Sink) :
    (c : DNodes) → (w : S.W) →
    DNodes.process_all (htmlWriter S) c w = writeAll S c w
  | .unit, _ => rfl
  | .single _, _ => rfl
  | .opt none, _ => rfl
  | .opt (some inner), w => process_all_htmlWriter S inner w
  | .list members, w => processList_htmlWriter S members w
  | .tuple members, w => processList_htmlWriter S members w

/-- The member fold with the `htmlWriter` processor is the writer's
own member fold. -/
theorem processList_htmlWriter (S : Sink) :
    (l : List DNodes) → (w : S.W) →
    DNodes.processList (htmlWriter S) l w = writeMembers S l w
  | [], _ => rfl
  | member :: rest, w => by
      simp only [DNodes.processList, writeMembers,
        process_all_htmlWriter S member w]
      cases hw : writeAll S member w with
      | ok w' => simpa using processList_htmlWriter S rest w'
      | error e => rfl

end

/-- Fold of an appended member list: run the first part, then feed its
accumulator to the second; an error in the first part is final. -/
theorem processList_append (P : Processor) : ∀ (l1 l2 : List DNodes) (acc : P.Acc),
    DNodes.processList P (l1 ++ l2) acc =
      match DNodes.processList P l1 acc with
      | .ok acc' => DNodes.processList P l2 acc'
      | .error e => .error e
  | [], _, _ => rfl
  | member :: rest, l2, acc => by
      simp only [List.cons_append, DNodes.processList]
      cases DNodes.process_all P member acc with
      | ok acc' => exact processList_append P rest l2 acc'
      | error e => rfl

/-- `writeNode` is exactly the source's `add_node`: dispatch on
`node.value()`; for an element write the opening tag with the
attributes the iterator yields, recurse into the node's children with
the same `HtmlWriter` processor, and close the tag; for a text node
write the payload. -/
theorem writeNode_matches_add_node (S : Sink) :
    (n : DNode) → (w : S.W) →
    writeNode S n w =
      match n.value with
      | .Element tagname =>
          (writeOpenTag S tagname n.attrsList w).bind (fun w1 =>
            (DNode.process_children (htmlWriter S) n w1).bind (fun w2 =>
              S.write w2 ("</" ++ tagname ++ ">")))
      | .Text t => S.write w t
  | .tag tagname attrs contents, w => by
      have hpa : DNodes.process_all (htmlWriter S) contents
          = writeAll S contents :=
        funext (process_all_htmlWriter S contents)
      simp only [DNode.value, DNode.process_children, hpa]
      rfl
  | .text s, w => rfl
  | .withAttributes node attrs, w => by
      simp only [writeNode, DNode.value, DNode.process_children]
      cases node.value with
      | Element tagname => rfl
      | Text t => rfl
  | .ref node, w => by
      have hpc : DNode.process_children (htmlWriter S) node
          = writeChildren S node :=
        funext (process_children_htmlWriter S node)
      simp only [writeNode, DNode.value, DNode.process_children, hpc]
      cases node.value with
      | Element tagname => rfl
      | Text t => rfl
  | .custom tagname, w => by
      simp only [DNode.value, DNode.process_children]
      rfl

/-- The expected serialization of `html_sample()` from the
`builds_string` test, whitespace stripped. -/
def htmlSampleExpected : String :=
  "<div attr=\"value\"><bogus_tag_one></bogus_tag_one><bogus_tag_one></bogus_tag_one><bogus_tag_two></bogus_tag_two><table>something<th></th><tr></tr><tr></tr></table></div>"

/-- C1: the HTML writer serializes an element as `<tagname`, then
` key="value"` for each attribute in order (the attribute sequence
agrees with `get_attribute` index by index and stops at the first
`none`), then `>`, the children via the same processor, and
`</tagname>`; a text payload is written verbatim; and the sample tree
serializes to exactly the expected string. -/
theorem c1_html_writer_serialization :
    (∀ (S : Sink) (n : DNode) (w : S.W),
      writeNode S n w =
        match n.value with
        | .Element tagname =>
            (writeOpenTag S tagname n.attrsList w).bind (fun w1 =>
              (DNode.process_children (htmlWriter S) n w1).bind (fun w2 =>
                S.write w2 ("</" ++ tagname ++ ">")))
        | .Text t => S.write w t)
    ∧ (∀ (S : Sink) (tagname : String) (attrs : List KeyValue) (w : S.W),
      writeOpenTag S tagname attrs w =
        (S.write w ("<" ++ tagname)).bind (fun w1 =>
          (writeAttrs S attrs w1).bind (fun w2 => S.write w2 ">")))
    ∧ (∀ (S : Sink) (k v : String) (rest : List KeyValue) (w : S.W),
      writeAttrs S ((k, v) :: rest) w =
        (S.write w (" " ++ k ++ "=\"" ++ v ++ "\"")).bind (writeAttrs S rest))
    ∧ (∀ (n : DNode) (k : Nat), k < n.attrsList.length →
        n.attrsList[k]? = n.get_attribute k)
    ∧ (∀ n : DNode, n.get_attribute n.attrsList.length = none)
    ∧ (∀ (S : Sink) (s : String) (w : S.W), writeNode S (.text s) w = S.write w s)
    ∧ DNodes.process_all (htmlWriter stringSink) (.single htmlSample) ""
        = .ok htmlSampleExpected := by
  refine ⟨writeNode_matches_add_node, ?_, ?_, attrsList_getElem, attrsList_end,
    fun S s w => rfl, rfl⟩
  · intro S tagname attrs w
    simp only [writeOpenTag]
    cases S.write w ("<" ++ tagname) with
    | error e => rfl
    | ok w1 =>
        cases writeAttrs S attrs w1 with
        | error e => rfl
        | ok w2 => rfl
  · intro S k v rest w
    simp only [writeAttrs]
    cases S.write w (" " ++ k ++ "=\"" ++ v ++ "\"") with
    | error e => rfl
    | ok w1 => rfl

/-- Witness for C1 at a concrete input: the sample tree's root has one
attribute, read back at index 0. -/
theorem c1_html_writer_serialization_witness :
    0 < htmlSample.attrsList.length
    ∧ htmlSample.attrsList[0]? = htmlSample.get_attribute 0 :=
  ⟨by decide, c1_html_writer_serialization.2.2.2.1 htmlSample 0 (by decide)⟩

/-- C2: an overlay node reads its own attribute slice below its
length and delegates to the wrapped node at `i - len` otherwise, so
wrapping a bare `div(())` with `attr2/attr3` and then `attr1` yields
the concatenated sequence at indices 0,1,2 and `none` at 3. -/
theorem c2_with_attributes_overlay :
    (∀ (n : DNode) (a : List KeyValue) (i : Nat), i < a.length →
      (n.with_attributes a).get_attribute i = a[i]?)
    ∧ (∀ (n : DNode) (a : List KeyValue) (i : Nat), a.length ≤ i →
      (n.with_attributes a).get_attribute i = n.get_attribute (i - a.length))
    ∧ (((tags.div (.bare .unit)).with_attributes
          [("attr2", "val2"), ("attr3", "val3")]).with_attributes
          [("attr1", "val1")]).get_attribute 0 = some ("attr1", "val1")
    ∧ (((tags.div (.bare .unit)).with_attributes
          [("attr2", "val2"), ("attr3", "val3")]).with_attributes
          [("attr1", "val1")]).get_attribute 1 = some ("attr2", "val2")
    ∧ (((tags.div (.bare .unit)).with_attributes
          [("attr2", "val2"), ("attr3", "val3")]).with_attributes
          [("attr1", "val1")]).get_attribute 2 = some ("attr3", "val3")
    ∧ (((tags.div (.bare .unit)).with_attributes
          [("attr2", "val2"), ("attr3", "val3")]).with_attributes
          [("attr1", "val1")]).get_attribute 3 = none := by
  refine ⟨?_, ?_, rfl, rfl, rfl, rfl⟩
  · intro n a i h
    simp only [DNode.with_attributes, DNode.get_attribute]
    rw [List.getElem?_eq_getElem h]
    rfl
  · intro n a i h
    simp only [DNode.with_attributes, DNode.get_attribute]
    rw [List.getElem?_eq_none (by omega)]
    rfl

/-- Witness for C2 at a concrete input: a single-entry overlay over a
text node, looked up inside and past its own slice. -/
theorem c2_with_attributes_overlay_witness :
    ((DNode.text "x").with_attributes [("k", "v")]).get_attribute 0
        = [("k", "v")][0]?
    ∧ ((DNode.text "x").with_attributes [("k", "v")]).get_attribute 1
        = (DNode.text "x").get_attribute 0 :=
  ⟨c2_with_attributes_overlay.1 (DNode.text "x") [("k", "v")] 0 (by decide),
   c2_with_attributes_overlay.2.1 (DNode.text "x") [("k", "v")] 1 (by decide)⟩

/-- C3: monotonic exhaustion holds for every node the library
defines: once `get_attribute` returns `none` at some index it returns
`none` at every larger index. -/
theorem c3_monotonic_exhaustion (n : DNode) (i j : Nat) (hij : i ≤ j)
    (h : n.get_attribute i = none) : n.get_attribute j = none :=
  get_attribute_mono n i j hij h

/-- Witness for C3 at a concrete input: a one-attribute `Tag` is
exhausted at index 1, hence also at index 2. -/
theorem c3_monotonic_exhaustion_witness :
    (DNode.tag "div" [("a", "b")] DNodes.unit).get_attribute 1 = none
    ∧ (DNode.tag "div" [("a", "b")] DNodes.unit).get_attribute 2 = none :=
  ⟨by decide,
   c3_monotonic_exhaustion (DNode.tag "div" [("a", "b")] DNodes.unit) 1 2
     (by omega) (by decide)⟩

/-- C4: `process_children` on a `WithAttributes` overlay succeeds and
leaves the accumulator untouched, for every wrapped node, extra
attribute list and processor. -/
theorem c4_overlay_drops_children (node : DNode) (attrs : List KeyValue)
    (P : Processor) (acc : P.Acc) :
    DNode.process_children P (node.with_attributes attrs) acc = .ok acc :=
  rfl

/-- A processor that fails on the text node "bad" and otherwise
counts, used to exercise error propagation. -/
def FailOnBad : Processor :=
  { Acc := Nat
    Error := String
    proc := fun acc n =>
      match n.value with
      | .Text "bad" => .error "boom"
      | _ => .ok (acc + 1) }

/-- C5: errors short-circuit a fold.  If the members before `c` all
succeed and `c` fails with `e`, then the whole sequence (and the
whole tuple) fails with that same `e`, and the members after `c`
never influence the result (the fold equals the fold of the list
truncated right after `c`). -/
theorem c5_error_short_circuit (P : Processor) (l1 l2 : List DNodes)
    (c : DNodes) (acc acc' : P.Acc) (e : P.Error)
    (h1 : DNodes.processList P l1 acc = .ok acc')
    (h2 : DNodes.process_all P c acc' = .error e) :
    DNodes.process_all P (.list (l1 ++ c :: l2)) acc = .error e
    ∧ DNodes.process_all P (.tuple (l1 ++ c :: l2)) acc = .error e
    ∧ DNodes.process_all P (.list (l1 ++ c :: l2)) acc
        = DNodes.process_all P (.list (l1 ++ [c])) acc := by
  have key : ∀ rest : List DNodes,
      DNodes.processList P (l1 ++ c :: rest) acc = .error e := by
    intro rest
    rw [processList_append P l1 (c :: rest) acc, h1]
    simp only [DNodes.processList, h2]
  exact ⟨key l2, key l2, (key l2).trans (key []).symm⟩

/-- Witness for C5 at a concrete input: `[ok1, bad, ok2]` under
`FailOnBad` returns the error "boom". -/
theorem c5_error_short_circuit_witness :
    DNodes.processList FailOnBad [.single (.text "ok1")] (0 : Nat) = .ok (1 : Nat)
    ∧ DNodes.process_all FailOnBad (.single (.text "bad")) (1 : Nat)
        = .error "boom"
    ∧ DNodes.process_all FailOnBad
        (.list [.single (.text "ok1"), .single (.text "bad"),
          .single (.text "ok2")]) (0 : Nat) = .error "boom" :=
  ⟨rfl, rfl,
   (c5_error_short_circuit FailOnBad [.single (.text "ok1")]
     [.single (.text "ok2")] (.single (.text "bad")) (0 : Nat) (1 : Nat) "boom"
     rfl rfl).1⟩

/-- The `counts_children` test's 9-node collection:
`(BogusOne, BogusOne, [BogusOne; 3], [BogusOne], vec![(), (), ()],
[&BogusTwo; 3])`. -/
def countSampleNine : DNodes :=
  .tuple [
    .single (.custom "bogus_tag_one"),
    .single (.custom "bogus_tag_one"),
    .list [.single (.custom "bogus_tag_one"),
      .single (.custom "bogus_tag_one"),
      .single (.custom "bogus_tag_one")],
    .list [.single (.custom "bogus_tag_one")],
    .list [.unit, .unit, .unit],
    .list [.single (.ref (.custom "bogus_tag_two")),
      .single (.ref (.custom "bogus_tag_two")),
      .single (.ref (.custom "bogus_tag_two"))]]

/-- C6: `process_all` folds members in declaration order with
implicit-singleton flattening — unit and empty members contribute
nothing, a bare node is dispatched exactly once, optionals contribute
zero or one fold, sequences and tuples fold head first then the rest;
the sample collection counts to exactly 9. -/
theorem c6_collection_flattening :
    (∀ (P : Processor) (acc : P.Acc), DNodes.process_all P .unit acc = .ok acc)
    ∧ (∀ (P : Processor) (n : DNode) (acc : P.Acc),
        DNodes.process_all P (.single n) acc = P.proc acc n)
    ∧ (∀ (P : Processor) (acc : P.Acc),
        DNodes.process_all P (.opt none) acc = .ok acc)
    ∧ (∀ (P : Processor) (c : DNodes) (acc : P.Acc),
        DNodes.process_all P (.opt (some c)) acc = DNodes.process_all P c acc)
    ∧ (∀ (P : Processor) (acc : P.Acc),
        DNodes.process_all P (.list []) acc = .ok acc)
    ∧ (∀ (P : Processor) (acc : P.Acc),
        DNodes.process_all P (.tuple []) acc = .ok acc)
    ∧ (∀ (P : Processor) (m : DNodes) (rest : List DNodes) (acc : P.Acc),
        DNodes.process_all P (.list (m :: rest)) acc
          = (DNodes.process_all P m acc).bind
              (fun a => DNodes.process_all P (.list rest) a))
    ∧ (∀ (P : Processor) (m : DNodes) (rest : List DNodes) (acc : P.Acc),
        DNodes.process_all P (.tuple (m :: rest)) acc
          = (DNodes.process_all P m acc).bind
              (fun a => DNodes.process_all P (.tuple rest) a))
    ∧ DNodes.process_all ChildCounter countSampleNine (0 : Nat) = .ok (9 : Nat) := by
  refine ⟨fun P acc => rfl, fun P n acc => rfl, fun P acc => rfl,
    fun P c acc => rfl, fun P acc => rfl, fun P acc => rfl, ?_, ?_, rfl⟩
  · intro P m rest acc
    show DNodes.processList P (m :: rest) acc = _
    simp only [DNodes.processList]
    cases DNodes.process_all P m acc with
    | ok a => rfl
    | error e => rfl
  · intro P m rest acc
    show DNodes.processList P (m :: rest) acc = _
    simp only [DNodes.processList]
    cases DNodes.process_all P m acc with
    | ok a => rfl
    | error e => rfl

/-- A 4-attribute element with exactly 4 child nodes. -/
def elemFour : DNode :=
  DNode.tag "div"
    [("a1", "v1"), ("a2", "v2"), ("a3", "v3"), ("a4", "v4")]
    (.tuple [.single (.custom "bogus_tag_one"),
      .single (.custom "bogus_tag_one"),
      .single (.custom "bogus_tag_one"),
      .single (.custom "bogus_tag_two")])

/-- C7: a fold dispatches a node itself exactly once without
descending into its children: the 4-attribute, 4-child element counts
as 1 through an enclosing collection, while its `process_children`
counts its 4 children. -/
theorem c7_self_vs_children :
    (∀ (P : Processor) (n : DNode) (acc : P.Acc),
      DNodes.process_all P (.single n) acc = P.proc acc n)
    ∧ elemFour.attrsList.length = 4
    ∧ (∀ acc : Nat, DNodes.process_all ChildCounter (.single elemFour) acc
        = .ok (acc + 1))
    ∧ (∀ acc : Nat, DNodes.process_all ChildCounter (.tuple [.single elemFour]) acc
        = .ok (acc + 1))
    ∧ DNode.process_children ChildCounter elemFour (0 : Nat) = .ok (4 : Nat) :=
  ⟨fun P n acc => rfl, by decide, fun acc => rfl, fun acc => rfl, rfl⟩

/-- C8: every tag-builder constructor normalizes its argument as the
`TagProperties` impls specify: a bare child collection gives an empty
attribute list, `(Attrs(a), children)` gives exactly `a`; the built
`Tag` is an element with the constructor's fixed name whose
`process_children` folds exactly the given child collection; and the
named catalog entries are instances of that shared builder body. -/
theorem c8_tag_builders :
    (∀ (tagname : String) (c : DNodes) (i : Nat),
      (tags.mkTag tagname (.bare c)).get_attribute i = none)
    ∧ (∀ (tagname : String) (a : List KeyValue) (c : DNodes) (i : Nat),
      (tags.mkTag tagname (.withAttrs a c)).get_attribute i = a[i]?)
    ∧ (∀ (tagname : String) (c : DNodes),
      (tags.mkTag tagname (.bare c)).value = .Element tagname)
    ∧ (∀ (tagname : String) (a : List KeyValue) (c : DNodes),
      (tags.mkTag tagname (.withAttrs a c)).value = .Element tagname)
    ∧ (∀ (tagname : String) (c : DNodes) (P : Processor) (acc : P.Acc),
      DNode.process_children P (tags.mkTag tagname (.bare c)) acc
        = DNodes.process_all P c acc)
    ∧ (∀ (tagname : String) (a : List KeyValue) (c : DNodes) (P : Processor)
        (acc : P.Acc),
      DNode.process_children P (tags.mkTag tagname (.withAttrs a c)) acc
        = DNodes.process_all P c acc)
    ∧ (∀ p : tags.TagProperties,
      tags.div p = tags.mkTag "div" p ∧ tags.table p = tags.mkTag "table" p
      ∧ tags.th p = tags.mkTag "th" p ∧ tags.tr p = tags.mkTag "tr" p
      ∧ tags.span p = tags.mkTag "span" p) := by
  refine ⟨?_, fun tagname a c i => rfl, fun tagname c => rfl,
    fun tagname a c => rfl, fun tagname c P acc => rfl,
    fun tagname a c P acc => rfl,
    fun p => ⟨rfl, rfl, rfl, rfl, rfl⟩⟩
  intro tagname c i
  show ([] : List KeyValue)[i]? = none
  simp

/-- C9: the attribute iterator agrees element-wise with indexed
lookup, each `attributes()` call starts fresh at index 0, and the
iteration is exhausted from the first `none` on — in particular from
`attrsList`'s length on, so the yielded sequence is finite. -/
theorem c9_attributes_iterator :
    (∀ (n : DNode) (k : Nat),
      AttributeIter.nth n.attributes k = n.get_attribute k)
    ∧ (∀ n : DNode, (DNode.attributes n).index = 0
        ∧ (DNode.attributes n).node = n)
    ∧ (∀ (n : DNode) (i k : Nat), n.get_attribute i = none → i ≤ k →
        AttributeIter.nth n.attributes k = none)
    ∧ (∀ (n : DNode) (k : Nat), n.attrsList.length ≤ k →
        AttributeIter.nth n.attributes k = none) := by
  have hnth : ∀ (n : DNode) (k : Nat),
      AttributeIter.nth n.attributes k = n.get_attribute k := by
    intro n k
    simpa using nth_eq_get_attribute n 0 k
  refine ⟨hnth, fun n => ⟨rfl, rfl⟩, ?_, ?_⟩
  · intro n i k hi hik
    rw [hnth]
    exact get_attribute_mono n i k hik hi
  · intro n k hk
    rw [hnth]
    exact get_attribute_mono n n.attrsList.length k hk (attrsList_end n)

/-- Witness for C9 at a concrete input: a one-attribute `Tag`'s
iterator is exhausted at index 3. -/
theorem c9_attributes_iterator_witness :
    (DNode.tag "div" [("a", "b")] DNodes.unit).get_attribute 1 = none
    ∧ AttributeIter.nth (DNode.tag "div" [("a", "b")] DNodes.unit).attributes 3
        = none :=
  ⟨by decide,
   c9_attributes_iterator.2.2.1 (DNode.tag "div" [("a", "b")] DNodes.unit) 1 3
     (by decide) (by omega)⟩

/-- C10: a node behind a reference loses its attributes — the `&T`
implementation inherits the attribute-less default `get_attribute`
while forwarding `value` and `process_children` — so a referenced
attributed element serializes without its attributes. -/
theorem c10_ref_loses_attributes :
    (∀ (n : DNode) (i : Nat), (DNode.ref n).get_attribute i = none)
    ∧ (∀ n : DNode, (DNode.ref n).value = n.value)
    ∧ (∀ (n : DNode) (P : Processor) (acc : P.Acc),
        DNode.process_children P (.ref n) acc
          = DNode.process_children P n acc)
    ∧ (tags.div (.withAttrs [("attr", "value")] .unit)).get_attribute 0
        = some ("attr", "value")
    ∧ (DNode.ref (tags.div (.withAttrs [("attr", "value")] .unit))).get_attribute 0
        = none
    ∧ DNodes.process_all (htmlWriter stringSink)
        (.single (tags.div (.withAttrs [("attr", "value")] .unit))) ""
        = .ok "<div attr=\"value\"></div>"
    ∧ DNodes.process_all (htmlWriter stringSink)
        (.single (.ref (tags.div (.withAttrs [("attr", "value")] .unit)))) ""
        = .ok "<div></div>" :=
  ⟨fun _ _ => rfl, fun _ => rfl, fun _ _ _ => rfl, rfl, rfl, rfl, rfl⟩
